import Mathlib

/-!
Verification of the knowledge-base retrieval subsystem of the `wa_llm`
WhatsApp bot (`src/handler/knowledge_base_answers.py`).

Modelling conventions:
- Python strings are modelled as lists of characters (`PyStr`); `str.strip`,
  `str.split`, `str.lower` and substring tests are modelled directly on
  character lists.
- Python floats are modelled as rationals (`ℚ`).  All constants appearing in
  the handler (0.4, 0.3, 0.1, 0.7, 0.5) are decimal fractions that float
  arithmetic in the source also treats exactly for the computations the
  claims are about.
- The topic store is a list of `KBTopic` records and the two SQL queries of
  `hybrid_search` are modelled as filters over that list.  The cosine
  distance computed by the database is an oracle parameter
  `cosine : List ℚ → List ℚ → ℚ`, applied to the query embedding and the
  topic's stored embedding, exactly as the query expression
  `KBTopic.embedding.cosine_distance(embedded_question)` does.
- Fallible calls are modelled with `Except`.
-/

unseal Rat.add Rat.mul Rat.sub Rat.inv

namespace WaLlm

/-- Python string, modelled as its list of characters. -/
abbrev PyStr := List Char

/-- The apostrophe character (used to spell source strings containing it). -/
def apoChar : Char := Char.ofNat 39

/-- Python `str.lower()` (ASCII behaviour, which is all the source relies on). -/
def pyLower (s : PyStr) : PyStr := s.map Char.toLower

/-- Python `str.strip()`: drop leading and trailing whitespace. -/
def pyStrip (s : PyStr) : PyStr :=
  ((s.dropWhile Char.isWhitespace).reverse.dropWhile Char.isWhitespace).reverse

/-- Python `str.split()` with no argument: split on whitespace runs, no empty words. -/
def pySplit (s : PyStr) : List PyStr :=
  (s.splitOnP Char.isWhitespace).filter (fun w => !w.isEmpty)

/-- Python `needle in hay` for strings: substring containment. -/
def pySubstr (hay needle : PyStr) : Bool :=
  hay.tails.any (fun t => needle.isPrefixOf t)

/-- Python falsiness of an optional string (`not s` is true for `None` and `""`). -/
def optFalsy : Option PyStr → Bool
  | none => true
  | some s => s.isEmpty

/-- A row of the `kbtopics` table, as read by `knowledge_base_answers.py`:
`id`, nullable `group_jid`, `subject`, `summary` and the stored embedding. -/
structure KBTopic where
  id : PyStr
  group_jid : Option PyStr
  subject : Option PyStr
  summary : Option PyStr
  embedding : List ℚ
deriving DecidableEq

/-- A row of the `groups` table, restricted to the fields this handler reads. -/
structure Group where
  group_jid : PyStr
  managed : Bool
  community_keys : List PyStr
deriving DecidableEq

/-- `KnowledgeBaseAnswers.COSINE_DISTANCE_THRESHOLD = 0.4`. -/
def COSINE_DISTANCE_THRESHOLD : ℚ := mkRat 4 10

/-- `KnowledgeBaseAnswers.MAX_TOPICS_TO_RETRIEVE = 15`. -/
def MAX_TOPICS_TO_RETRIEVE : Nat := 15

/-- `KnowledgeBaseAnswers.MAX_QUERY_LENGTH = 500`. -/
def MAX_QUERY_LENGTH : Nat := 500

/-- The literal score `func.literal(0.3)` given to every keyword-branch row. -/
def KEYWORD_LITERAL_SCORE : ℚ := mkRat 3 10

/-- The `+ 0.1` penalty applied to keyword-only topics during the merge. -/
def KEYWORD_ONLY_PENALTY : ℚ := mkRat 1 10

/-- Ordering of result tuples by their distance component (the sort key
`lambda x: x[1]` and the SQL `order_by` both compare distances). -/
def distLE (a b : KBTopic × ℚ) : Prop := a.2 ≤ b.2

instance : DecidableRel distLE := fun a b => inferInstanceAs (Decidable (a.2 ≤ b.2))

instance : IsTrans (KBTopic × ℚ) distLE := ⟨fun _ _ _ h h2 => le_trans h h2⟩

instance : IsTotal (KBTopic × ℚ) distLE := ⟨fun a b => le_total a.2 b.2⟩

/-- The SQL filter `cast(KBTopic.group_jid, String).in_(group_jids)`:
a `NULL` `group_jid` never satisfies an `IN` condition. -/
def jidInScope (gj : Option PyStr) (group_jids : List PyStr) : Bool :=
  match gj with
  | none => false
  | some j => group_jids.contains j

/-- Semantic branch of `hybrid_search` (lines 65-74 and 110-112 of the
handler): rows with cosine distance below the threshold, non-null
`group_jid`, `group_jid` in the scope, ordered by ascending distance,
limited to `MAX_TOPICS_TO_RETRIEVE`, each row paired with its distance. -/
def semanticSearch (cosine : List ℚ → List ℚ → ℚ) (store : List KBTopic)
    (embedded_question : List ℚ) (group_jids : List PyStr) : List (KBTopic × ℚ) :=
  let rows := (store.filter (fun t =>
      decide (cosine embedded_question t.embedding < COSINE_DISTANCE_THRESHOLD)
      && t.group_jid.isSome
      && jidInScope t.group_jid group_jids)).map
    (fun t => (t, cosine embedded_question t.embedding))
  (rows.insertionSort distLE).take MAX_TOPICS_TO_RETRIEVE

/-- The handler's stop-word set (line 78). -/
def stop_words : List PyStr :=
  ["the".toList, "and".toList, "or".toList, "but".toList, "in".toList,
   "on".toList, "at".toList, "to".toList, "for".toList, "of".toList,
   "with".toList, "by".toList, "what".toList, "how".toList, "when".toList,
   "where".toList, "why".toList, "who".toList]

/-- Keyword extraction (lines 79-83): split the question, keep words whose
stripped form is longer than 2 characters and whose lowercase form is not a
stop word, and normalise each kept word to `word.strip().lower()`. -/
def extractKeywords (original_text : PyStr) : List PyStr :=
  ((pySplit original_text).filter (fun w =>
      2 < (pyStrip w).length && !stop_words.contains (pyLower w))).map
    (fun w => pyLower (pyStrip w))

/-- One SQL `LIKE` condition `lower(field) LIKE escape(kw)` surrounded by
`%`: with the `%`/`_` escaping of line 89 the pattern matches exactly when
the keyword occurs as a substring of the lowercased field.  A `NULL` field
never satisfies `LIKE`. -/
def fieldLike (field : Option PyStr) (kw : PyStr) : Bool :=
  match field with
  | none => false
  | some s => pySubstr (pyLower s) kw

/-- The `or_` of the keyword conditions built from the first 5 keywords
(lines 86-93): subject or summary contains some keyword. -/
def keywordConditions (keywords : List PyStr) (t : KBTopic) : Bool :=
  (keywords.take 5).any (fun kw => fieldLike t.subject kw || fieldLike t.summary kw)

/-- Keyword branch of `hybrid_search` (lines 95-103 and 113-116): rows
matching some keyword condition, with non-null `group_jid` in scope,
limited to 5, each given the literal score 0.3. -/
def keywordSearch (store : List KBTopic) (keywords : List PyStr)
    (group_jids : List PyStr) : List (KBTopic × ℚ) :=
  ((store.filter (fun t =>
      keywordConditions keywords t
      && t.group_jid.isSome
      && jidInScope t.group_jid group_jids)).map
    (fun t => (t, KEYWORD_LITERAL_SCORE))).take 5

/-- Python dict assignment `m[k] = v` for an insertion-ordered dictionary:
if the key is present its value is replaced in place, otherwise the pair is
appended. -/
def dictSet (m : List (PyStr × (KBTopic × ℚ))) (k : PyStr) (v : KBTopic × ℚ) :
    List (PyStr × (KBTopic × ℚ)) :=
  if m.any (fun p => p.1 == k) then
    m.map (fun p => if p.1 == k then (k, v) else p)
  else m ++ [(k, v)]

/-- The merge of lines 133-149: build `all_topics` keyed by `topic.id` from
the semantic rows, add each keyword row only if its id is absent, with its
distance increased by 0.1, then sort all values by distance and keep the
first 10. -/
def mergeResults (semantic keyword : List (KBTopic × ℚ)) : List (KBTopic × ℚ) :=
  let m1 := semantic.foldl (fun m td => dictSet m td.1.id td) []
  let m2 := keyword.foldl (fun m td =>
      if m.any (fun p => p.1 == td.1.id) then m
      else m ++ [(td.1.id, (td.1, td.2 + KEYWORD_ONLY_PENALTY))]) m1
  ((m2.map Prod.snd).insertionSort distLE).take 10

/-- `KnowledgeBaseAnswers.hybrid_search`.  `select_from` is the optional
group scope (`None` models both an omitted and a `None` argument; Python's
`not select_from` is also true for an empty list).  On success it returns
the merged `(topic, distance)` list; the keyword query is only built when
the keyword list is non-empty (lines 85 and 104-105). -/
def hybrid_search (cosine : List ℚ → List ℚ → ℚ) (store : List KBTopic)
    (embedded_question : List ℚ) (original_text : PyStr)
    (select_from : Option (List Group)) : Except PyStr (List (KBTopic × ℚ)) :=
  match select_from with
  | none => Except.error "Group filtering is required for knowledge base search".toList
  | some groups =>
    if groups.isEmpty then
      Except.error "Group filtering is required for knowledge base search".toList
    else
      let group_jids := groups.map Group.group_jid
      let semantic := semanticSearch cosine store embedded_question group_jids
      let keywords := extractKeywords original_text
      let keyword := if keywords.isEmpty then [] else keywordSearch store keywords group_jids
      Except.ok (mergeResults semantic keyword)

/-- The retention test of `filter_quality_topics` (lines 199-215): a tuple
is kept unless its distance is at least the threshold, its subject or
summary is falsy, or the stripped subject/summary are shorter than 3/10
characters. -/
def qualityCheck (t : KBTopic) (d : ℚ) : Bool :=
  !decide (COSINE_DISTANCE_THRESHOLD ≤ d)
  && !optFalsy t.subject
  && !optFalsy t.summary
  && !(decide ((pyStrip (t.subject.getD [])).length < 3)
       || decide ((pyStrip (t.summary.getD [])).length < 10))

/-- Per-topic confidence (line 220): `max(0, 1 - distance / threshold)`. -/
def topicConfidence (d : ℚ) : ℚ := max 0 (1 - d / COSINE_DISTANCE_THRESHOLD)

/-- `KnowledgeBaseAnswers.filter_quality_topics`: the retained topics are
formatted as `subject + newline + summary`; the returned confidence is the
total per-topic confidence divided by the number of retained topics, and
0.0 when nothing is retained (line 225). -/
def filter_quality_topics (topics_with_distances : List (KBTopic × ℚ)) :
    List PyStr × ℚ :=
  let retained := topics_with_distances.filter (fun td => qualityCheck td.1 td.2)
  let quality_topics := retained.map (fun td =>
      (td.1.subject.getD []) ++ ['\n'] ++ (td.1.summary.getD []))
  let total_confidence := (retained.map (fun td => topicConfidence td.2)).sum
  (quality_topics,
    if quality_topics.isEmpty then 0 else total_confidence / quality_topics.length)

/-- The `generic_responses` set of `validate_rephrased_query` (lines 40-43). -/
def generic_responses : List PyStr :=
  ["i don".toList ++ [apoChar] ++ "t understand".toList,
   "unclear".toList, "no query".toList, "invalid".toList,
   "not clear".toList, "cannot determine".toList,
   "i cannot".toList, "unable to".toList]

/-- Words of length above 2, lowercased (lines 48-49); used on both the
original and the rephrased text.  The source builds a `set`, but it only
ever tests whether the intersection is non-empty, for which the list of
words is equivalent. -/
def contentWords (s : PyStr) : List PyStr :=
  ((pySplit s).filter (fun w => 2 < w.length)).map pyLower

/-- Size of the overlap between the two word sets (line 52). -/
def wordOverlap (original rephrased : PyStr) : Nat :=
  ((contentWords original).filter (fun w => (contentWords rephrased).contains w)).length

/-- `KnowledgeBaseAnswers.validate_rephrased_query` (lines 33-53). -/
def validate_rephrased_query (original rephrased : Option PyStr) : Bool :=
  if optFalsy original || optFalsy rephrased
      || decide ((pyStrip (rephrased.getD [])).length < 3) then
    false
  else if generic_responses.contains (pyStrip (pyLower (rephrased.getD []))) then
    false
  else
    decide (0 < wordOverlap (original.getD []) (rephrased.getD []))
    || (decide (3 ≤ (pySplit (rephrased.getD [])).length)
        && decide (10 ≤ (rephrased.getD []).length))

/-- The moderate-confidence guidance line of `generation_agent` (line 476). -/
def moderate_confidence_guidance : PyStr :=
  "\n- Since the topic matching confidence is moderate, be appropriately cautious in your response".toList

/-- The low-confidence guidance line of `generation_agent` (line 479). -/
def low_confidence_guidance : PyStr :=
  "\n- Since the topic matching confidence is low, clearly indicate uncertainty and suggest the user provide more specific details".toList

/-- The confidence-dependent part of the generation system prompt
(lines 474-480 of the handler): `if confidence_score < 0.7` sets the
moderate guidance, `elif confidence_score < 0.5` sets the low guidance. -/
def confidence_guidance (confidence_score : ℚ) : PyStr :=
  if confidence_score < mkRat 7 10 then moderate_confidence_guidance
  else if confidence_score < mkRat 5 10 then low_confidence_guidance
  else []

/-- The language heuristic `any(ord(c) > 127 for c in message.text)`. -/
def hasNonAscii (s : PyStr) : Bool := s.any (fun c => 127 < c.toNat)

/-- Fixed message of step 7 when no quality topic remains (line 410-411). -/
def noRelevantMsg (hebrew : Bool) : PyStr :=
  if hebrew then "לא מצאתי מידע רלוונטי על זה במאגר הידע שלי 🤔".toList
  else "I couldn".toList ++ [apoChar] ++ "t find relevant information about this in my knowledge base 🤔".toList

/-- Fixed cautious message of step 8 when the confidence is below 0.3
(lines 419-423). -/
def cautiousMsg (hebrew : Bool) : PyStr :=
  if hebrew then "מצאתי מידע שעשוי להיות רלוונטי, אבל אני לא בטוח. האם תוכל לנסח את השאלה מחדש?".toList
  else "I found some potentially relevant information, but I".toList ++ [apoChar]
       ++ "m not confident. Could you rephrase your question?".toList

/-- Fixed message sent when the generation agent raises (lines 441-442). -/
def generationFailMsg (hebrew : Bool) : PyStr :=
  if hebrew then "מצטער, יש לי בעיה ביצירת התשובה".toList
  else "Sorry, I had trouble generating a response".toList

/-- Steps 7-11 of `KnowledgeBaseAnswers.__call__` (lines 406-460), from the
quality-filter output onwards: the text of the single message the handler
sends.  When generation succeeds, `generation_response.output` is passed to
`send_message` as is — the handler applies no length truncation. -/
def answerSendStage (message_text : PyStr) (similar_topics : List PyStr)
    (confidence_score : ℚ) (generation : Except PyStr PyStr) : PyStr :=
  if similar_topics.isEmpty then noRelevantMsg (hasNonAscii message_text)
  else if confidence_score < mkRat 3 10 then cautiousMsg (hasNonAscii message_text)
  else
    match generation with
    | Except.error _ => generationFailMsg (hasNonAscii message_text)
    | Except.ok out => out

/-! ### Basic lemmas about the two search branches -/

theorem jidInScope_eq_true {gj : Option PyStr} {jids : List PyStr}
    (h : jidInScope gj jids = true) : ∃ j, gj = some j ∧ j ∈ jids := by
  cases gj with
  | none => simp [jidInScope] at h
  | some j => exact ⟨j, rfl, by simpa [jidInScope] using h⟩

theorem mem_semanticSearch {cosine : List ℚ → List ℚ → ℚ} {store : List KBTopic}
    {q : List ℚ} {jids : List PyStr} {t : KBTopic} {d : ℚ}
    (h : (t, d) ∈ semanticSearch cosine store q jids) :
    t ∈ store ∧ d = cosine q t.embedding ∧ d < COSINE_DISTANCE_THRESHOLD
      ∧ jidInScope t.group_jid jids = true := by
  unfold semanticSearch at h
  have h1 := List.take_subset _ _ h
  have h2 := (List.perm_insertionSort distLE _).mem_iff.mp h1
  obtain ⟨t', ht', he⟩ := List.mem_map.mp h2
  obtain ⟨hst, hpred⟩ := List.mem_filter.mp ht'
  obtain ⟨rfl, rfl⟩ : t' = t ∧ cosine q t'.embedding = d := by
    constructor <;> [exact congrArg Prod.fst he; exact congrArg Prod.snd he]
  simp only [Bool.and_eq_true, decide_eq_true_eq] at hpred
  exact ⟨hst, rfl, hpred.1.1, hpred.2⟩

theorem mem_keywordSearch {store : List KBTopic} {kws : List PyStr}
    {jids : List PyStr} {t : KBTopic} {d : ℚ}
    (h : (t, d) ∈ keywordSearch store kws jids) :
    t ∈ store ∧ d = KEYWORD_LITERAL_SCORE ∧ jidInScope t.group_jid jids = true := by
  unfold keywordSearch at h
  have h1 := List.take_subset _ _ h
  obtain ⟨t', ht', he⟩ := List.mem_map.mp h1
  obtain ⟨hst, hpred⟩ := List.mem_filter.mp ht'
  obtain ⟨rfl, rfl⟩ : t' = t ∧ KEYWORD_LITERAL_SCORE = d := by
    constructor <;> [exact congrArg Prod.fst he; exact congrArg Prod.snd he]
  simp only [Bool.and_eq_true] at hpred
  exact ⟨hst, rfl, hpred.2⟩

/-! ### Lemmas about the dictionary used in the merge -/

theorem mem_dictSet {m : List (PyStr × (KBTopic × ℚ))} {k : PyStr}
    {v : KBTopic × ℚ} {p : PyStr × (KBTopic × ℚ)}
    (h : p ∈ dictSet m k v) : p = (k, v) ∨ p ∈ m := by
  unfold dictSet at h
  split at h
  · obtain ⟨q, hq, he⟩ := List.mem_map.mp h
    by_cases hk : (q.1 == k) = true
    · rw [if_pos hk] at he
      exact Or.inl he.symm
    · rw [if_neg hk] at he
      exact Or.inr (he ▸ hq)
  · rcases List.mem_append.mp h with h | h
    · exact Or.inr h
    · exact Or.inl (by simpa using h)

/-- A key is bound in the association list modelling the Python dict. -/
def HasKey (m : List (PyStr × (KBTopic × ℚ))) (k : PyStr) : Prop :=
  ∃ p ∈ m, p.1 = k

theorem hasKey_iff_any {m : List (PyStr × (KBTopic × ℚ))} {k : PyStr} :
    HasKey m k ↔ m.any (fun p => p.1 == k) = true := by
  constructor
  · rintro ⟨p, hp, he⟩
    exact List.any_eq_true.mpr ⟨p, hp, by simp [he]⟩
  · intro h
    obtain ⟨p, hp, he⟩ := List.any_eq_true.mp h
    exact ⟨p, hp, by simpa using he⟩

theorem hasKey_dictSet_of {m : List (PyStr × (KBTopic × ℚ))} {k k' : PyStr}
    {v : KBTopic × ℚ} (h : HasKey m k') : HasKey (dictSet m k v) k' := by
  unfold dictSet
  split
  · obtain ⟨p, hp, he⟩ := h
    by_cases hk : (p.1 == k) = true
    · refine ⟨(k, v), List.mem_map.mpr ⟨p, hp, by rw [if_pos hk]⟩, ?_⟩
      have hpk : p.1 = k := by simpa using hk
      rw [← hpk, he]
    · exact ⟨p, List.mem_map.mpr ⟨p, hp, by rw [if_neg hk]⟩, he⟩
  · obtain ⟨p, hp, he⟩ := h
    exact ⟨p, List.mem_append.mpr (Or.inl hp), he⟩

theorem hasKey_dictSet_self {m : List (PyStr × (KBTopic × ℚ))} {k : PyStr}
    {v : KBTopic × ℚ} : HasKey (dictSet m k v) k := by
  unfold dictSet
  split
  · next hc =>
    obtain ⟨p, hp, hpk⟩ := List.any_eq_true.mp hc
    exact ⟨(k, v), List.mem_map.mpr ⟨p, hp, by rw [if_pos hpk]⟩, rfl⟩
  · exact ⟨(k, v), List.mem_append.mpr (Or.inr (by simp)), rfl⟩

/-! ### The semantic fold of `mergeResults` -/

theorem mem_semFold {s : List (KBTopic × ℚ)} :
    ∀ {init : List (PyStr × (KBTopic × ℚ))} {p},
      p ∈ s.foldl (fun m td => dictSet m td.1.id td) init →
      (∃ td ∈ s, p = (td.1.id, td)) ∨ p ∈ init := by
  induction s with
  | nil => intro init p h; exact Or.inr h
  | cons hd tl ih =>
    intro init p h
    rw [List.foldl_cons] at h
    rcases ih h with ⟨td, htd, he⟩ | h2
    · exact Or.inl ⟨td, List.mem_cons_of_mem _ htd, he⟩
    · rcases mem_dictSet h2 with he | hm
      · exact Or.inl ⟨hd, List.mem_cons_self _ _, he⟩
      · exact Or.inr hm

theorem hasKey_semFold_mono {s : List (KBTopic × ℚ)} :
    ∀ {init : List (PyStr × (KBTopic × ℚ))} {k}, HasKey init k →
      HasKey (s.foldl (fun m td => dictSet m td.1.id td) init) k := by
  induction s with
  | nil => intro init k h; exact h
  | cons hd tl ih =>
    intro init k h
    rw [List.foldl_cons]
    exact ih (hasKey_dictSet_of h)

theorem hasKey_semFold {s : List (KBTopic × ℚ)} :
    ∀ {init : List (PyStr × (KBTopic × ℚ))}, ∀ td ∈ s,
      HasKey (s.foldl (fun m td => dictSet m td.1.id td) init) td.1.id := by
  induction s with
  | nil => intro _ td h; cases h
  | cons hd tl ih =>
    intro init td h
    rcases List.mem_cons.mp h with rfl | h2
    · rw [List.foldl_cons]
      exact hasKey_semFold_mono hasKey_dictSet_self
    · rw [List.foldl_cons]
      exact ih td h2

/-! ### The keyword fold of `mergeResults` -/

theorem mem_kwFold {kw : List (KBTopic × ℚ)} {m1 : List (PyStr × (KBTopic × ℚ))} :
    ∀ {m : List (PyStr × (KBTopic × ℚ))} {p},
      (∀ k, HasKey m1 k → HasKey m k) →
      p ∈ kw.foldl (fun m td =>
          if m.any (fun q => q.1 == td.1.id) then m
          else m ++ [(td.1.id, (td.1, td.2 + KEYWORD_ONLY_PENALTY))]) m →
      p ∈ m ∨ ∃ td ∈ kw, p = (td.1.id, (td.1, td.2 + KEYWORD_ONLY_PENALTY))
          ∧ ¬ HasKey m1 td.1.id := by
  induction kw with
  | nil => exact fun _ h => Or.inl h
  | cons hd tl ih =>
    intro m p hmono h
    rw [List.foldl_cons] at h
    by_cases hc : (m.any (fun q => q.1 == hd.1.id)) = true
    · rw [if_pos hc] at h
      rcases ih hmono h with h1 | ⟨td, htd, he, hn⟩
      · exact Or.inl h1
      · exact Or.inr ⟨td, List.mem_cons_of_mem _ htd, he, hn⟩
    · rw [if_neg hc] at h
      have hmono' : ∀ k, HasKey m1 k →
          HasKey (m ++ [(hd.1.id, (hd.1, hd.2 + KEYWORD_ONLY_PENALTY))]) k := by
        intro k hk
        obtain ⟨q, hq, hqe⟩ := hmono k hk
        exact ⟨q, List.mem_append.mpr (Or.inl hq), hqe⟩
      rcases ih hmono' h with h1 | ⟨td, htd, he, hn⟩
      · rcases List.mem_append.mp h1 with h2 | h2
        · exact Or.inl h2
        · refine Or.inr ⟨hd, List.mem_cons_self _ _, by simpa using h2, ?_⟩
          intro hk1
          exact hc (hasKey_iff_any.mp (hmono _ hk1))
      · exact Or.inr ⟨td, List.mem_cons_of_mem _ htd, he, hn⟩

/-! ### Structure of the merged result -/

theorem mem_mergeResults {s k : List (KBTopic × ℚ)} {t : KBTopic} {d : ℚ}
    (h : (t, d) ∈ mergeResults s k) :
    (t, d) ∈ s ∨ ∃ d₀, (t, d₀) ∈ k ∧ d = d₀ + KEYWORD_ONLY_PENALTY
        ∧ ∀ t₁ d₁, (t₁, d₁) ∈ s → t₁.id ≠ t.id := by
  unfold mergeResults at h
  have h1 := List.take_subset _ _ h
  have h2 := (List.perm_insertionSort distLE _).mem_iff.mp h1
  obtain ⟨p, hp, hps⟩ := List.mem_map.mp h2
  have hid : ∀ k', HasKey (s.foldl (fun m td => dictSet m td.1.id td) []) k' →
      HasKey (s.foldl (fun m td => dictSet m td.1.id td) []) k' := fun _ h => h
  rcases mem_kwFold hid hp with hpm1 | ⟨td, htd, he, hnk⟩
  · rcases mem_semFold hpm1 with ⟨td, htd, he⟩ | hinit
    · left
      have : p.2 = (t, d) := hps
      rw [he] at this
      exact this ▸ htd
    · cases hinit
  · right
    have hsnd : p.2 = (t, d) := hps
    rw [he] at hsnd
    have ht : td.1 = t := congrArg Prod.fst hsnd
    have hd : td.2 + KEYWORD_ONLY_PENALTY = d := congrArg Prod.snd hsnd
    refine ⟨td.2, ?_, hd.symm, ?_⟩
    · rw [← ht]
      simpa using htd
    · intro t₁ d₁ hs he1
      apply hnk
      have := @hasKey_semFold _ [] (t₁, d₁) hs
      simpa [he1, ht] using this

/-- Keys of the association list, for the id-uniqueness argument. -/
def KeysId (m : List (PyStr × (KBTopic × ℚ))) : Prop :=
  ∀ p ∈ m, p.1 = p.2.1.id

theorem keysId_dictSet {m : List (PyStr × (KBTopic × ℚ))} {v : KBTopic × ℚ}
    (h : KeysId m) : KeysId (dictSet m v.1.id v) := by
  intro p hp
  rcases mem_dictSet hp with rfl | hm
  · rfl
  · exact h p hm

theorem keysId_semFold {s : List (KBTopic × ℚ)} :
    ∀ {init : List (PyStr × (KBTopic × ℚ))}, KeysId init →
      KeysId (s.foldl (fun m td => dictSet m td.1.id td) init) := by
  induction s with
  | nil => intro init h; exact h
  | cons hd tl ih =>
    intro init h
    rw [List.foldl_cons]
    exact ih (keysId_dictSet h)

theorem keysId_kwFold {kw : List (KBTopic × ℚ)} :
    ∀ {m : List (PyStr × (KBTopic × ℚ))}, KeysId m →
      KeysId (kw.foldl (fun m td =>
          if m.any (fun q => q.1 == td.1.id) then m
          else m ++ [(td.1.id, (td.1, td.2 + KEYWORD_ONLY_PENALTY))]) m) := by
  induction kw with
  | nil => intro m h; exact h
  | cons hd tl ih =>
    intro m h
    rw [List.foldl_cons]
    split
    · exact ih h
    · refine ih ?_
      intro p hp
      rcases List.mem_append.mp hp with hm | hm
      · exact h p hm
      · have : p = (hd.1.id, (hd.1, hd.2 + KEYWORD_ONLY_PENALTY)) := by simpa using hm
        rw [this]

theorem keysNodup_dictSet {m : List (PyStr × (KBTopic × ℚ))} {k : PyStr}
    {v : KBTopic × ℚ} (h : (m.map Prod.fst).Nodup) :
    ((dictSet m k v).map Prod.fst).Nodup := by
  unfold dictSet
  split
  · have he : (m.map (fun p => if p.1 == k then (k, v) else p)).map Prod.fst
        = m.map Prod.fst := by
      rw [List.map_map]
      apply List.map_congr_left
      intro p _
      by_cases hk : (p.1 == k) = true
      · simp only [Function.comp, hk, if_pos]
        exact (by simpa using hk : p.1 = k).symm
      · simp only [Function.comp, hk, if_neg, Bool.false_eq_true, not_false_iff]
    rw [he]
    exact h
  · next hc =>
    rw [List.map_append]
    refine List.Nodup.append h (by simp) ?_
    intro a ha hb
    have ha' : a ∈ m.map Prod.fst := ha
    have hk : a = k := by simpa using hb
    obtain ⟨p, hp, hpe⟩ := List.mem_map.mp ha'
    have : (m.any (fun q => q.1 == k)) = true :=
      List.any_eq_true.mpr ⟨p, hp, by simp [hpe, hk]⟩
    exact hc this

theorem keysNodup_semFold {s : List (KBTopic × ℚ)} :
    ∀ {init : List (PyStr × (KBTopic × ℚ))}, (init.map Prod.fst).Nodup →
      ((s.foldl (fun m td => dictSet m td.1.id td) init).map Prod.fst).Nodup := by
  induction s with
  | nil => intro init h; exact h
  | cons hd tl ih =>
    intro init h
    rw [List.foldl_cons]
    exact ih (keysNodup_dictSet h)

theorem keysNodup_kwFold {kw : List (KBTopic × ℚ)} :
    ∀ {m : List (PyStr × (KBTopic × ℚ))}, (m.map Prod.fst).Nodup →
      ((kw.foldl (fun m td =>
          if m.any (fun q => q.1 == td.1.id) then m
          else m ++ [(td.1.id, (td.1, td.2 + KEYWORD_ONLY_PENALTY))]) m).map
        Prod.fst).Nodup := by
  induction kw with
  | nil => intro m h; exact h
  | cons hd tl ih =>
    intro m h
    rw [List.foldl_cons]
    split
    · exact ih h
    · next hc =>
      refine ih ?_
      rw [List.map_append]
      refine List.Nodup.append h (by simp) ?_
      intro a ha hb
      have hk : a = hd.1.id := by simpa using hb
      obtain ⟨p, hp, hpe⟩ := List.mem_map.mp ha
      exact hc (List.any_eq_true.mpr ⟨p, hp, by simp [hpe, hk]⟩)

theorem mergeResults_sorted (s k : List (KBTopic × ℚ)) :
    List.Sorted distLE (mergeResults s k) := by
  unfold mergeResults
  exact List.Pairwise.sublist (List.take_sublist _ _) (List.sorted_insertionSort distLE _)

theorem mergeResults_length_le (s k : List (KBTopic × ℚ)) :
    (mergeResults s k).length ≤ 10 := by
  unfold mergeResults
  exact le_trans (List.length_take_le _ _) (le_refl 10)

theorem take_sort_ids_nodup {m2 : List (PyStr × (KBTopic × ℚ))}
    (hid : KeysId m2) (hnd : (m2.map Prod.fst).Nodup) :
    ((((m2.map Prod.snd).insertionSort distLE).take 10).map
      (fun td => td.1.id)).Nodup := by
  have he : (m2.map Prod.snd).map (fun td => td.1.id) = m2.map Prod.fst := by
    rw [List.map_map]
    exact List.map_congr_left (fun p hp => (hid p hp).symm)
  have h2 : ((m2.map Prod.snd).map (fun td => td.1.id)).Nodup := he ▸ hnd
  have h3 := (((List.perm_insertionSort distLE (m2.map Prod.snd))).map
    (fun td => td.1.id)).nodup_iff.mpr h2
  rw [List.map_take]
  exact List.Nodup.sublist (List.take_sublist _ _) h3

theorem mergeResults_ids_nodup (s k : List (KBTopic × ℚ)) :
    ((mergeResults s k).map (fun td => td.1.id)).Nodup := by
  have hid0 : KeysId ([] : List (PyStr × (KBTopic × ℚ))) :=
    fun p hp => absurd hp (List.not_mem_nil p)
  have hnd0 : ((([] : List (PyStr × (KBTopic × ℚ))).map Prod.fst)).Nodup :=
    List.nodup_nil
  exact take_sort_ids_nodup (keysId_kwFold (keysId_semFold hid0))
    (keysNodup_kwFold (keysNodup_semFold hnd0))

theorem hybrid_search_ok_elim {cosine : List ℚ → List ℚ → ℚ} {store : List KBTopic}
    {q : List ℚ} {txt : PyStr} {groups : List Group} {l : List (KBTopic × ℚ)}
    (hok : hybrid_search cosine store q txt (some groups) = Except.ok l) :
    l = mergeResults (semanticSearch cosine store q (groups.map Group.group_jid))
        (if (extractKeywords txt).isEmpty then []
         else keywordSearch store (extractKeywords txt) (groups.map Group.group_jid)) := by
  simp only [hybrid_search] at hok
  split at hok
  · exact (Except.noConfusion hok)
  · exact (Except.ok.inj hok).symm

/-! ### Concrete fixtures used by the witnesses -/

/-- A well-formed topic of group `g1`. -/
def topicA : KBTopic :=
  { id := "t1".toList, group_jid := some "g1".toList,
    subject := some "abc".toList, summary := some "0123456789".toList,
    embedding := [1] }

/-- An orphaned topic (`group_jid` NULL). -/
def topicOrphan : KBTopic :=
  { id := "t0".toList, group_jid := none,
    subject := some "abc".toList, summary := some "0123456789".toList,
    embedding := [1] }

/-- The asking group. -/
def groupA : Group :=
  { group_jid := "g1".toList, managed := true, community_keys := [] }

/-- A cosine-distance oracle that reports distance `0` for every pair
(the most favourable value an excluded topic could ever have). -/
def cosineZero : List ℚ → List ℚ → ℚ := fun _ _ => 0

/-! ### The claims -/

/-- C1: group isolation.  Every `(topic, distance)` tuple returned by a
successful `hybrid_search` call carries a `group_jid` that belongs to the
scope set's group jids; a topic of any other group never appears,
regardless of its distance or keyword matches. -/
theorem hybrid_search_group_isolation
    (cosine : List ℚ → List ℚ → ℚ) (store : List KBTopic) (q : List ℚ)
    (txt : PyStr) (groups : List Group) (l : List (KBTopic × ℚ))
    (hok : hybrid_search cosine store q txt (some groups) = Except.ok l) :
    ∀ t d, (t, d) ∈ l →
      ∃ j, t.group_jid = some j ∧ j ∈ groups.map Group.group_jid := by
  intro t d hmem
  rw [hybrid_search_ok_elim hok] at hmem
  rcases mem_mergeResults hmem with hs | ⟨d₀, hk, _, _⟩
  · exact jidInScope_eq_true (mem_semanticSearch hs).2.2.2
  · by_cases hke : (extractKeywords txt).isEmpty
    · rw [if_pos hke] at hk
      exact absurd hk (List.not_mem_nil _)
    · rw [if_neg hke] at hk
      exact jidInScope_eq_true (mem_keywordSearch hk).2.2

/-- Witness for C1 at a concrete store containing a scoped topic and an
orphan, scope `[groupA]`. -/
theorem hybrid_search_group_isolation_witness :
    ∃ j, topicA.group_jid = some j ∧ j ∈ [groupA].map Group.group_jid :=
  hybrid_search_group_isolation cosineZero [topicA, topicOrphan] [0] [] [groupA]
    [(topicA, 0)] rfl topicA 0 (by simp)

/-- C2: orphan exclusion.  A topic with a NULL `group_jid` is never present
in a successful `hybrid_search` result — both branches filter
`group_jid != None` (and the `IN` scope filter also rejects NULL) — even if
its cosine distance is `0` or its text matches every keyword. -/
theorem hybrid_search_orphan_exclusion
    (cosine : List ℚ → List ℚ → ℚ) (store : List KBTopic) (q : List ℚ)
    (txt : PyStr) (groups : List Group) (l : List (KBTopic × ℚ))
    (hok : hybrid_search cosine store q txt (some groups) = Except.ok l) :
    ∀ t d, (t, d) ∈ l → ∃ j, t.group_jid = some j := by
  intro t d hmem
  rw [hybrid_search_ok_elim hok] at hmem
  rcases mem_mergeResults hmem with hs | ⟨d₀, hk, _, _⟩
  · obtain ⟨j, hj, _⟩ := jidInScope_eq_true (mem_semanticSearch hs).2.2.2
    exact ⟨j, hj⟩
  · by_cases hke : (extractKeywords txt).isEmpty
    · rw [if_pos hke] at hk
      exact absurd hk (List.not_mem_nil _)
    · rw [if_neg hke] at hk
      obtain ⟨j, hj, _⟩ := jidInScope_eq_true (mem_keywordSearch hk).2.2
      exact ⟨j, hj⟩

/-- Witness for C2: with the orphan topic at cosine distance `0` in the
store, the returned list contains only the scoped topic. -/
theorem hybrid_search_orphan_exclusion_witness :
    ∃ j, topicA.group_jid = some j :=
  hybrid_search_orphan_exclusion cosineZero [topicOrphan, topicA] [0] [] [groupA]
    [(topicA, 0)] rfl topicA 0 (by simp)

/-- C3: mandatory scope fail-fast.  With `select_from` omitted/None or an
empty collection, `hybrid_search` raises `ValueError` (modelled as
`Except.error` with the source's message) before executing either search
branch, and returns no results. -/
theorem hybrid_search_requires_scope
    (cosine : List ℚ → List ℚ → ℚ) (store : List KBTopic) (q : List ℚ)
    (txt : PyStr) :
    hybrid_search cosine store q txt none =
      Except.error "Group filtering is required for knowledge base search".toList
    ∧ hybrid_search cosine store q txt (some []) =
      Except.error "Group filtering is required for knowledge base search".toList :=
  ⟨rfl, rfl⟩

/-- C4: merge semantics.  In a successful `hybrid_search` result every
topic id appears at most once; every tuple either comes unchanged from the
semantic branch (a topic found by both branches keeps its semantic
distance), or its topic id is absent from the semantic branch entirely and
its distance is the keyword branch distance plus the 0.1 penalty; the list
is sorted ascending by distance and has at most 10 entries. -/
theorem hybrid_search_merge_spec
    (cosine : List ℚ → List ℚ → ℚ) (store : List KBTopic) (q : List ℚ)
    (txt : PyStr) (groups : List Group) (l : List (KBTopic × ℚ))
    (hok : hybrid_search cosine store q txt (some groups) = Except.ok l) :
    (l.map (fun td => td.1.id)).Nodup
    ∧ List.Sorted distLE l
    ∧ l.length ≤ 10
    ∧ ∀ t d, (t, d) ∈ l →
        (t, d) ∈ semanticSearch cosine store q (groups.map Group.group_jid)
        ∨ ∃ d₀, (t, d₀) ∈ keywordSearch store (extractKeywords txt)
              (groups.map Group.group_jid)
            ∧ d = d₀ + KEYWORD_ONLY_PENALTY
            ∧ ∀ t₁ d₁, (t₁, d₁) ∈ semanticSearch cosine store q
                (groups.map Group.group_jid) → t₁.id ≠ t.id := by
  have hl := hybrid_search_ok_elim hok
  refine ⟨hl ▸ mergeResults_ids_nodup _ _, hl ▸ mergeResults_sorted _ _,
    hl ▸ mergeResults_length_le _ _, ?_⟩
  intro t d hmem
  rw [hl] at hmem
  rcases mem_mergeResults hmem with hs | ⟨d₀, hk, hde, hni⟩
  · exact Or.inl hs
  · by_cases hke : (extractKeywords txt).isEmpty
    · rw [if_pos hke] at hk
      exact absurd hk (List.not_mem_nil _)
    · rw [if_neg hke] at hk
      exact Or.inr ⟨d₀, hk, hde, hni⟩

/-- Witness for C4 at the concrete two-topic store. -/
theorem hybrid_search_merge_spec_witness :
    (([(topicA, (0:ℚ))].map (fun td => td.1.id)).Nodup)
    ∧ List.Sorted distLE [(topicA, (0:ℚ))]
    ∧ ([(topicA, (0:ℚ))] : List (KBTopic × ℚ)).length ≤ 10
    ∧ ∀ t d, (t, d) ∈ ([(topicA, (0:ℚ))] : List (KBTopic × ℚ)) →
        (t, d) ∈ semanticSearch cosineZero [topicA, topicOrphan] [0]
          ([groupA].map Group.group_jid)
        ∨ ∃ d₀, (t, d₀) ∈ keywordSearch [topicA, topicOrphan]
              (extractKeywords []) ([groupA].map Group.group_jid)
            ∧ d = d₀ + KEYWORD_ONLY_PENALTY
            ∧ ∀ t₁ d₁, (t₁, d₁) ∈ semanticSearch cosineZero [topicA, topicOrphan]
                [0] ([groupA].map Group.group_jid) → t₁.id ≠ t.id :=
  hybrid_search_merge_spec cosineZero [topicA, topicOrphan] [0] [] [groupA]
    [(topicA, 0)] rfl

/-- C10: a topic retrieved only by the keyword branch carries distance
0.3 + 0.1 = 0.4, which equals the cosine-distance threshold, so the quality
filter's retention test always rejects it: any tuple of a successful
`hybrid_search` result that passes `qualityCheck` comes from the semantic
branch. -/
theorem keyword_only_never_passes_quality
    : KEYWORD_LITERAL_SCORE + KEYWORD_ONLY_PENALTY = COSINE_DISTANCE_THRESHOLD
    ∧ ∀ (cosine : List ℚ → List ℚ → ℚ) (store : List KBTopic) (q : List ℚ)
        (txt : PyStr) (groups : List Group) (l : List (KBTopic × ℚ)),
        hybrid_search cosine store q txt (some groups) = Except.ok l →
        ∀ t d, (t, d) ∈ l → qualityCheck t d = true →
        (t, d) ∈ semanticSearch cosine store q (groups.map Group.group_jid) := by
  refine ⟨by decide, ?_⟩
  intro cosine store q txt groups l hok t d hmem hq
  rw [hybrid_search_ok_elim hok] at hmem
  rcases mem_mergeResults hmem with hs | ⟨d₀, hk, hde, _⟩
  · exact hs
  · exfalso
    by_cases hke : (extractKeywords txt).isEmpty
    · rw [if_pos hke] at hk
      exact absurd hk (List.not_mem_nil _)
    · rw [if_neg hke] at hk
      have hd0 : d₀ = KEYWORD_LITERAL_SCORE := (mem_keywordSearch hk).2.1
      rw [hde, hd0] at hq
      have hge : decide (COSINE_DISTANCE_THRESHOLD ≤
          KEYWORD_LITERAL_SCORE + KEYWORD_ONLY_PENALTY) = true := by decide
      rw [qualityCheck, hge] at hq
      simp at hq

/-- Witness for C10: the quality-passing tuple of the concrete search
result is a semantic-branch row. -/
theorem keyword_only_never_passes_quality_witness :
    (topicA, (0:ℚ)) ∈ semanticSearch cosineZero [topicA, topicOrphan] [0]
      ([groupA].map Group.group_jid) :=
  keyword_only_never_passes_quality.2 cosineZero [topicA, topicOrphan] [0] []
    [groupA] [(topicA, 0)] rfl topicA 0 (by simp) (by decide)

/-! ### Quality filter and confidence score -/

theorem isEmpty_map {α β : Type} (f : α → β) (l : List α) :
    (l.map f).isEmpty = l.isEmpty := by
  cases l <;> rfl

theorem threshold_pos : (0:ℚ) < COSINE_DISTANCE_THRESHOLD := by decide

/-- The confidence component of `filter_quality_topics`, rewritten over the
retained sublist itself instead of the formatted strings. -/
theorem filter_quality_topics_conf_eq (l : List (KBTopic × ℚ)) :
    (filter_quality_topics l).2 =
      (if (l.filter (fun td => qualityCheck td.1 td.2)).isEmpty then 0
       else ((l.filter (fun td => qualityCheck td.1 td.2)).map
           (fun td => topicConfidence td.2)).sum
         / (l.filter (fun td => qualityCheck td.1 td.2)).length) := by
  show (if ((l.filter (fun td => qualityCheck td.1 td.2)).map (fun td =>
        (td.1.subject.getD []) ++ ['\n'] ++ (td.1.summary.getD []))).isEmpty
      then (0:ℚ)
      else ((l.filter (fun td => qualityCheck td.1 td.2)).map
          (fun td => topicConfidence td.2)).sum
        / ((l.filter (fun td => qualityCheck td.1 td.2)).map (fun td =>
            (td.1.subject.getD []) ++ ['\n'] ++ (td.1.summary.getD []))).length) = _
  rw [isEmpty_map, List.length_map]

theorem topicConfidence_nonneg (d : ℚ) : 0 ≤ topicConfidence d :=
  le_max_left 0 _

theorem topicConfidence_le_one {d : ℚ} (h : 0 ≤ d) : topicConfidence d ≤ 1 := by
  unfold topicConfidence
  refine max_le (by decide) ?_
  have : 0 ≤ d / COSINE_DISTANCE_THRESHOLD := div_nonneg h (le_of_lt threshold_pos)
  linarith

theorem topicConfidence_antitone {d1 d2 : ℚ} (h : d1 ≤ d2) :
    topicConfidence d2 ≤ topicConfidence d1 := by
  unfold topicConfidence
  refine max_le_max (le_refl 0) ?_
  have : d1 / COSINE_DISTANCE_THRESHOLD ≤ d2 / COSINE_DISTANCE_THRESHOLD :=
    (div_le_div_iff_of_pos_right threshold_pos).mpr h
  linarith

/-- C5: confidence computation.  `filter_quality_topics` retains exactly the
tuples with distance below the threshold and non-missing,
sufficiently long subject/summary; the confidence is the arithmetic mean of
`max(0, 1 - distance/threshold)` over the retained tuples (`0` when none is
retained), and — distances being non-negative scores — lies in `[0, 1]`. -/
theorem filter_quality_topics_spec
    (l : List (KBTopic × ℚ)) (h0 : ∀ td ∈ l, (0:ℚ) ≤ td.2) :
    (∀ t d, qualityCheck t d = true ↔
        (d < COSINE_DISTANCE_THRESHOLD ∧ optFalsy t.subject = false
          ∧ optFalsy t.summary = false
          ∧ 3 ≤ (pyStrip (t.subject.getD [])).length
          ∧ 10 ≤ (pyStrip (t.summary.getD [])).length))
    ∧ (filter_quality_topics l).2 =
        (if (l.filter (fun td => qualityCheck td.1 td.2)).isEmpty then 0
         else ((l.filter (fun td => qualityCheck td.1 td.2)).map
             (fun td => max 0 (1 - td.2 / COSINE_DISTANCE_THRESHOLD))).sum
           / (l.filter (fun td => qualityCheck td.1 td.2)).length)
    ∧ 0 ≤ (filter_quality_topics l).2
    ∧ (filter_quality_topics l).2 ≤ 1 := by
  have hchar : ∀ t d, qualityCheck t d = true ↔
      (d < COSINE_DISTANCE_THRESHOLD ∧ optFalsy t.subject = false
        ∧ optFalsy t.summary = false
        ∧ 3 ≤ (pyStrip (t.subject.getD [])).length
        ∧ 10 ≤ (pyStrip (t.summary.getD [])).length) := by
    intro t d
    simp only [qualityCheck, Bool.and_eq_true, Bool.not_eq_true',
      decide_eq_false_iff_not, not_le, Bool.or_eq_false_iff,
      decide_eq_true_eq, not_lt]
    tauto
  have hconf := filter_quality_topics_conf_eq l
  have hr0 : ∀ td ∈ l.filter (fun td => qualityCheck td.1 td.2), (0:ℚ) ≤ td.2 :=
    fun td h => h0 td (List.mem_of_mem_filter h)
  refine ⟨hchar, by rw [hconf]; rfl, ?_, ?_⟩
  · rw [hconf]
    split
    · exact le_refl 0
    · refine div_nonneg ?_ (Nat.cast_nonneg _)
      refine List.sum_nonneg ?_
      intro x hx
      obtain ⟨td, _, rfl⟩ := List.mem_map.mp hx
      exact topicConfidence_nonneg _
  · rw [hconf]
    split
    · exact by decide
    · next hne =>
      have hlenpos : 0 < (l.filter (fun td => qualityCheck td.1 td.2)).length := by
        cases h : l.filter (fun td => qualityCheck td.1 td.2) with
        | nil => rw [h] at hne; exact absurd rfl hne
        | cons a tl => exact Nat.succ_pos _
      rw [div_le_one (by exact_mod_cast hlenpos)]
      have hb : ∀ x ∈ (l.filter (fun td => qualityCheck td.1 td.2)).map
          (fun td => topicConfidence td.2), x ≤ 1 := by
        intro x hx
        obtain ⟨td, htd, rfl⟩ := List.mem_map.mp hx
        exact topicConfidence_le_one (hr0 td htd)
      calc ((l.filter (fun td => qualityCheck td.1 td.2)).map
              (fun td => topicConfidence td.2)).sum
          ≤ ((l.filter (fun td => qualityCheck td.1 td.2)).map
              (fun td => topicConfidence td.2)).length • (1:ℚ) :=
            List.sum_le_card_nsmul _ 1 hb
        _ = ((l.filter (fun td => qualityCheck td.1 td.2)).length : ℚ) := by
            rw [List.length_map, nsmul_eq_mul, mul_one]

/-- Witness for C5 at the singleton list `[(topicA, 0)]`. -/
theorem filter_quality_topics_spec_witness :
    (∀ t d, qualityCheck t d = true ↔
        (d < COSINE_DISTANCE_THRESHOLD ∧ optFalsy t.subject = false
          ∧ optFalsy t.summary = false
          ∧ 3 ≤ (pyStrip (t.subject.getD [])).length
          ∧ 10 ≤ (pyStrip (t.summary.getD [])).length))
    ∧ (filter_quality_topics [(topicA, (0:ℚ))]).2 =
        (if (([(topicA, (0:ℚ))].filter (fun td => qualityCheck td.1 td.2)).isEmpty) then 0
         else (([(topicA, (0:ℚ))].filter (fun td => qualityCheck td.1 td.2)).map
             (fun td => max 0 (1 - td.2 / COSINE_DISTANCE_THRESHOLD))).sum
           / ([(topicA, (0:ℚ))].filter (fun td => qualityCheck td.1 td.2)).length)
    ∧ 0 ≤ (filter_quality_topics [(topicA, (0:ℚ))]).2
    ∧ (filter_quality_topics [(topicA, (0:ℚ))]).2 ≤ 1 :=
  filter_quality_topics_spec [(topicA, 0)] (by decide)

/-! ### Confidence monotonicity -/

/-- A second well-formed topic, for the monotonicity counterexample. -/
def topicB : KBTopic :=
  { id := "t2".toList, group_jid := some "g1".toList,
    subject := some "def".toList, summary := some "abcdefghij".toList,
    embedding := [1] }

/-- C6 counterexample: two lists with identical topics and pointwise
smaller-or-equal distances (`0.39 ≤ 0.4` on the second topic), where the
smaller-distance list yields the strictly smaller confidence, because the
`0.4` tuple is dropped by the threshold and no longer lowers the mean. -/
theorem filter_quality_topics_not_monotone :
    List.Forall₂ (fun (a b : KBTopic × ℚ) => a.1 = b.1 ∧ a.2 ≤ b.2)
      [(topicA, 0), (topicB, mkRat 39 100)] [(topicA, 0), (topicB, mkRat 4 10)]
    ∧ (filter_quality_topics [(topicA, 0), (topicB, mkRat 39 100)]).2
      < (filter_quality_topics [(topicA, 0), (topicB, mkRat 4 10)]).2 :=
  ⟨.cons ⟨rfl, by decide⟩ (.cons ⟨rfl, by decide⟩ .nil), by decide⟩

theorem retained_rel {L1 L2 : List (KBTopic × ℚ)}
    (hrel : List.Forall₂ (fun a b => a.1 = b.1 ∧ a.2 ≤ b.2) L1 L2)
    (hthr : ∀ td ∈ L2, td.2 < COSINE_DISTANCE_THRESHOLD) :
    List.Forall₂ (fun a b => a.1 = b.1 ∧ a.2 ≤ b.2)
      (L1.filter (fun td => qualityCheck td.1 td.2))
      (L2.filter (fun td => qualityCheck td.1 td.2)) := by
  induction L1 generalizing L2 with
  | nil =>
    cases hrel
    exact List.Forall₂.nil
  | cons a tl1 ih =>
    cases hrel with
    | cons hab htl =>
      next b tl2 =>
      have hthr_tl : ∀ td ∈ tl2, td.2 < COSINE_DISTANCE_THRESHOLD :=
        fun td h => hthr td (List.mem_cons_of_mem _ h)
      have hbT : b.2 < COSINE_DISTANCE_THRESHOLD := hthr b (List.mem_cons_self _ _)
      have haT : a.2 < COSINE_DISTANCE_THRESHOLD := lt_of_le_of_lt hab.2 hbT
      have hq : qualityCheck a.1 a.2 = qualityCheck b.1 b.2 := by
        rw [qualityCheck, qualityCheck, hab.1,
          decide_eq_false (not_le.mpr haT), decide_eq_false (not_le.mpr hbT)]
      rw [List.filter_cons, List.filter_cons]
      cases hqa : qualityCheck a.1 a.2 with
      | true =>
        have hqb : qualityCheck b.1 b.2 = true := hq.symm.trans hqa
        simp only [hqa, hqb, if_true]
        exact List.Forall₂.cons hab (ih htl hthr_tl)
      | false =>
        have hqb : qualityCheck b.1 b.2 = false := hq.symm.trans hqa
        simp only [hqa, hqb, Bool.false_eq_true, if_false]
        exact ih htl hthr_tl

theorem conf_sum_len_of_rel {r1 r2 : List (KBTopic × ℚ)}
    (h : List.Forall₂ (fun a b => a.1 = b.1 ∧ a.2 ≤ b.2) r1 r2) :
    (r2.map (fun td => topicConfidence td.2)).sum
      ≤ (r1.map (fun td => topicConfidence td.2)).sum
    ∧ r1.length = r2.length := by
  induction h with
  | nil => exact ⟨le_refl 0, rfl⟩
  | cons hab htl ih =>
    refine ⟨?_, by simp [ih.2]⟩
    simp only [List.map_cons, List.sum_cons]
    exact add_le_add (topicConfidence_antitone hab.2) ih.1

/-- C6 amended: monotonicity holds for result sets whose larger distances
still all lie below the similarity threshold (so that both lists retain the
same topics): with identical topics in identical order and pointwise
smaller-or-equal distances, the smaller-distance list's confidence is at
least the larger-distance list's. -/
theorem filter_quality_topics_monotone
    (L1 L2 : List (KBTopic × ℚ))
    (hrel : List.Forall₂ (fun a b => a.1 = b.1 ∧ a.2 ≤ b.2) L1 L2)
    (hthr : ∀ td ∈ L2, td.2 < COSINE_DISTANCE_THRESHOLD) :
    (filter_quality_topics L2).2 ≤ (filter_quality_topics L1).2 := by
  obtain ⟨hsum, hlen⟩ := conf_sum_len_of_rel (retained_rel hrel hthr)
  rw [filter_quality_topics_conf_eq, filter_quality_topics_conf_eq]
  have hemp : (L1.filter (fun td => qualityCheck td.1 td.2)).isEmpty
      = (L2.filter (fun td => qualityCheck td.1 td.2)).isEmpty := by
    cases h1 : L1.filter (fun td => qualityCheck td.1 td.2) with
    | nil =>
      cases h2 : L2.filter (fun td => qualityCheck td.1 td.2) with
      | nil => rfl
      | cons b tl2 => rw [h1, h2] at hlen; cases hlen
    | cons a tl1 =>
      cases h2 : L2.filter (fun td => qualityCheck td.1 td.2) with
      | nil => rw [h1, h2] at hlen; cases hlen
      | cons b tl2 => rfl
  rw [hemp]
  split
  · exact le_refl 0
  · next hne =>
    have hlenpos : 0 < (L2.filter (fun td => qualityCheck td.1 td.2)).length := by
      cases h : L2.filter (fun td => qualityCheck td.1 td.2) with
      | nil => rw [h] at hne; exact absurd rfl hne
      | cons a tl => exact Nat.succ_pos _
    rw [← hlen]
    have hlenpos1 : 0 < (L1.filter (fun td => qualityCheck td.1 td.2)).length := by
      rw [hlen]; exact hlenpos
    exact (div_le_div_iff_of_pos_right (by exact_mod_cast hlenpos1)).mpr hsum

/-- Witness for the amended C6, with both distance lists below the
threshold. -/
theorem filter_quality_topics_monotone_witness :
    (filter_quality_topics [(topicA, 0), (topicB, mkRat 2 10)]).2
      ≤ (filter_quality_topics [(topicA, 0), (topicB, mkRat 1 10)]).2 :=
  filter_quality_topics_monotone
    [(topicA, 0), (topicB, mkRat 1 10)] [(topicA, 0), (topicB, mkRat 2 10)]
    (.cons ⟨rfl, by decide⟩ (.cons ⟨rfl, by decide⟩ .nil)) (by decide)

/-! ### Rephrase validation -/

/-- Rejection condition exactly as claim C7 words it (a spec-side
definition, for comparison with the code's validator): the rephrased string
is empty, shorter than 3 characters after trimming, equals a generic
non-answer, or shares no word overlap with the original while being both
shorter than 3 words and shorter than 10 characters. -/
def claimRejectsRephrased (original rephrased : PyStr) : Bool :=
  rephrased.isEmpty
  || decide ((pyStrip rephrased).length < 3)
  || generic_responses.contains (pyStrip (pyLower rephrased))
  || (decide (wordOverlap original rephrased = 0)
      && decide ((pySplit rephrased).length < 3)
      && decide (rephrased.length < 10))

/-- C7 counterexample, at two explicit inputs.  First: with an empty
original text and a perfectly good rephrasing, none of the claim's
rejection conditions holds, yet the code rejects (its first check
`not original` fires).  Second: with original `"zebra"` and rephrasing
`"elephant giraffe"` (no overlap, 2 words, 16 characters) the claim's
condition `shorter than 3 words AND shorter than 10 characters` is false,
so the claim accepts — but the code requires `at least 3 words AND at
least 10 characters` when there is no overlap, and rejects. -/
theorem validate_rephrased_query_counterexample :
    (claimRejectsRephrased [] "what is the deployment process".toList = false
      ∧ validate_rephrased_query (some [])
          (some "what is the deployment process".toList) = false)
    ∧ (claimRejectsRephrased "zebra".toList "elephant giraffe".toList = false
      ∧ validate_rephrased_query (some "zebra".toList)
          (some "elephant giraffe".toList) = false) := by
  decide

/-- C7 amended: `validate_rephrased_query` rejects exactly when the
original is falsy (None or empty) or the rephrased text is falsy, shorter
than 3 characters after trimming, a generic non-answer (after lowercasing
and trimming), or has no content-word overlap with the original while
being shorter than 3 words or shorter than 10 characters. -/
theorem validate_rephrased_query_characterization
    (original rephrased : Option PyStr) :
    validate_rephrased_query original rephrased = false ↔
      (optFalsy original = true ∨ optFalsy rephrased = true
        ∨ (pyStrip (rephrased.getD [])).length < 3
        ∨ generic_responses.contains (pyStrip (pyLower (rephrased.getD []))) = true
        ∨ (wordOverlap (original.getD []) (rephrased.getD []) = 0
            ∧ ((pySplit (rephrased.getD [])).length < 3
               ∨ (rephrased.getD []).length < 10))) := by
  unfold validate_rephrased_query
  split
  · next h =>
    simp only [Bool.or_eq_true, decide_eq_true_eq] at h
    simp only [true_iff, eq_self_iff_true]
    rcases h with (h | h) | h
    · exact Or.inl h
    · exact Or.inr (Or.inl h)
    · exact Or.inr (Or.inr (Or.inl h))
  · next h =>
    simp only [Bool.or_eq_true, decide_eq_true_eq, not_or] at h
    obtain ⟨⟨ho, hr⟩, hlen⟩ := h
    rw [Bool.not_eq_true] at ho hr
    split
    · next hg =>
      simp only [true_iff]
      exact Or.inr (Or.inr (Or.inr (Or.inl hg)))
    · next hg =>
      rw [Bool.not_eq_true] at hg
      simp only [ho, hr, hg, Bool.false_eq_true, false_or, Bool.or_eq_true,
        Bool.and_eq_true, decide_eq_true_eq, Bool.or_eq_false_iff,
        Bool.and_eq_false_iff, decide_eq_false_iff_not, not_lt, not_le]
      omega

/-! ### Confidence-conditioned generation guidance -/

/-- C8: in `generation_agent`, the `if confidence_score < 0.7` branch is
checked first, so every confidence below 0.7 — including every value below
0.5 — receives the moderate (hedging) guidance, and the `elif
confidence_score < 0.5` branch is unreachable: at the failing input 0.4 the
guidance is the moderate line, and for every confidence the guidance is
either the moderate line or empty (never the low-confidence line the spec
describes). -/
theorem confidence_guidance_low_branch_dead :
    confidence_guidance (mkRat 4 10) = moderate_confidence_guidance
    ∧ ∀ c : ℚ, confidence_guidance c = moderate_confidence_guidance
        ∨ confidence_guidance c = [] := by
  refine ⟨rfl, ?_⟩
  intro c
  unfold confidence_guidance
  by_cases h : c < mkRat 7 10
  · rw [if_pos h]
    exact Or.inl rfl
  · rw [if_neg h]
    have h5 : ¬ (c < mkRat 5 10) := fun hlt => h (hlt.trans (by decide))
    rw [if_neg h5]
    exact Or.inr rfl

/-! ### The send stage -/

/-- C9 counterexample: a successfully generated 5000-character answer is
delivered verbatim by the knowledge-base send stage — well beyond the
~4096-character transport limit the repository itself notes — with no
truncation and no truncation notice. -/
theorem answer_send_no_truncation_counterexample :
    answerSendStage "hi".toList ["t".toList] 1
        (Except.ok (List.replicate 5000 'a')) = List.replicate 5000 'a'
    ∧ 4096 < (answerSendStage "hi".toList ["t".toList] 1
        (Except.ok (List.replicate 5000 'a'))).length := by
  refine ⟨rfl, ?_⟩
  rw [show answerSendStage "hi".toList ["t".toList] 1
      (Except.ok (List.replicate 5000 'a')) = List.replicate 5000 'a' from rfl,
    List.length_replicate]
  decide

/-- C9 amended: when the answer generator succeeds and the earlier gates
pass (some quality topic, confidence at least 0.3), the orchestrator sends
exactly the generated text, unchanged: no length truncation is applied and
no truncation notice appended, whatever the length (the repository only
truncates in the unrelated daily-summary handler). -/
theorem answer_send_stage_sends_generated_text
    (message_text : PyStr) (similar_topics : List PyStr)
    (confidence_score : ℚ) (generated : PyStr)
    (htopics : similar_topics.isEmpty = false)
    (hconf : mkRat 3 10 ≤ confidence_score) :
    answerSendStage message_text similar_topics confidence_score
      (Except.ok generated) = generated := by
  simp [answerSendStage, htopics, not_lt.mpr hconf]

/-- Witness for the amended C9. -/
theorem answer_send_stage_sends_generated_text_witness :
    answerSendStage "hi".toList ["t".toList] 1 (Except.ok "ok".toList)
      = "ok".toList :=
  answer_send_stage_sends_generated_text "hi".toList ["t".toList] 1 "ok".toList
    rfl (by decide)

end WaLlm
